import Mathlib

/-!
Verification of the Quarto preview plugin (`src/src/main.ts` and the
variant snapshot embedded in `src/README.md`).

The development shallowly embeds the parts of the plugin the claims are
about: the stdout readiness parsing of `startPreviewAndGetUrl`, the
timeout/close/error event handling of that promise executor, the
`activePreviewProcesses` registry with `startPreview` / `stopPreview` /
`stopAllPreviews` / `toggleExternalPreview`, the `isQuartoFile` gate of the
command and ribbon entry points, `loadSettings`'s `Object.assign`
defaulting, the spawn configuration (argument vector and working
directory), and the environment construction of the README variant's
`startPreview`.
-/

namespace QmdPreview



/-! ## Readiness parsing

Embedding of the stdout handler of `startPreviewAndGetUrl`
(src/src/main.ts lines 154-163): the handler checks
`output.includes('Browse at')` and then runs the regular expression
`/Browse at\s+(http:\/\/[^\s]+)/`, resolving with capture group 1 of the
first match.  The regular expression is embedded as an explicit scan:
JavaScript's engine tries the pattern at each start position from the
left, so the result is the leftmost occurrence of the literal
`Browse at`, one or more whitespace characters, the literal `http://`,
and one or more non-whitespace characters (taken greedily). -/

/-- JavaScript regular-expression `\s` on the ASCII range: space, tab,
line feed, vertical tab, form feed, carriage return. -/
def isWsChar (c : Char) : Bool :=
  c == ' ' || c == '\t' || c == '\n' || c == '\x0b' || c == '\x0c' || c == '\r'

/-- The literal marker text the handler searches for. -/
def browseMarker : List Char := "Browse at".data

/-- The literal scheme required by the regular expression: `http://`. -/
def httpScheme : List Char := "http://".data

/-- The scheme `https://`, which the specification's wording also admits. -/
def httpsScheme : List Char := "https://".data

/-- `leadsWith pre l` is true when `l` starts with `pre`. -/
def leadsWith : List Char → List Char → Bool
  | [], _ => true
  | _ :: _, [] => false
  | a :: as, b :: bs => a == b && leadsWith as bs

/-- The text after the anchored marker occurrence. -/
def afterMarker (cs : List Char) : List Char := cs.drop browseMarker.length

/-- What `\s+` consumes right after the marker (greedy). -/
def wsRun (cs : List Char) : List Char := List.takeWhile isWsChar (afterMarker cs)

/-- The text after the whitespace run. -/
def afterWs (cs : List Char) : List Char := List.dropWhile isWsChar (afterMarker cs)

/-- What `[^\s]+` consumes right after `http://` (greedy). -/
def urlRun (cs : List Char) : List Char :=
  List.takeWhile (fun c => !isWsChar c) ((afterWs cs).drop httpScheme.length)

/-- One attempt of the pattern anchored at the current position:
the marker, then `\s+`, then `http://`, then `[^\s]+`.
Returns capture group 1, `http://` plus the non-whitespace run. -/
def matchHere (cs : List Char) : Option (List Char) :=
  if leadsWith browseMarker cs then
    if (wsRun cs).isEmpty then none
    else if leadsWith httpScheme (afterWs cs) then
      if (urlRun cs).isEmpty then none
      else some (httpScheme ++ urlRun cs)
    else none
  else none

/-- The leftmost match of the pattern in the chunk, as the JavaScript
engine finds it: try each start position from the left. -/
def findUrlAux : List Char → Option (List Char)
  | [] => none
  | c :: rest =>
    match matchHere (c :: rest) with
    | some u => some u
    | none => findUrlAux rest

/-- `output.match(/Browse at\s+(http:\/\/[^\s]+)/)` with group-1
extraction, on one chunk of stdout text. -/
def findUrl (s : String) : Option String :=
  (findUrlAux s.data).map List.asString

/-- A non-empty chunk whose first character is not whitespace. -/
def headNonWs : List Char → Bool
  | [] => false
  | c :: _ => !isWsChar c

/-- The pattern matches with nothing before it: the marker, a non-empty
whitespace run, `http://`, and at least one following non-whitespace
character. -/
def MarkerAt (cs : List Char) : Prop :=
  ∃ ws rest, cs = browseMarker ++ ws ++ httpScheme ++ rest ∧
    ws ≠ [] ∧ (∀ c ∈ ws, isWsChar c = true) ∧ headNonWs rest = true

/-- The line contains the literal `Browse at` followed by whitespace and
an `http://` URL: what the code's readiness test actually requires. -/
def IsMarkerLine (cs : List Char) : Prop :=
  ∃ pre rest, cs = pre ++ rest ∧ MarkerAt rest

/-- The readiness condition in the claim's wording: the line contains the
literal `Browse at` followed by whitespace and a URL beginning with
`http://` or with `https://`. -/
def IsMarkerLineClaim (cs : List Char) : Prop :=
  ∃ pre ws scheme rest, cs = pre ++ browseMarker ++ ws ++ scheme ++ rest ∧
    ws ≠ [] ∧ (∀ c ∈ ws, isWsChar c = true) ∧
    (scheme = httpScheme ∨ scheme = httpsScheme) ∧ headNonWs rest = true

/-! ## The promise executor of `startPreviewAndGetUrl`

Embedding of src/src/main.ts lines 135-180 as a state machine driven by
the events the executor can receive: a stdout chunk, a stderr chunk, a
spawn error, the close event (with the exit code), and the firing of the
10000 ms timeout.  The executor's observable state: the promise's
resolution (`none` = still pending; `some r` = resolved with `r`, where
`r : Option String` is the value passed to `resolve`), whether `cleanup`
ran (`clearTimeout` + `removeAllListeners`), the notices shown, the
number of kill signals sent to the spawned process, and whether
`file.path` is still a key of `activePreviewProcesses`.

The translation is line by line: the timeout callback (lines 148-152)
runs `cleanup(); resolve(null)` and shows the timeout notice — it sends
no kill signal; the stdout handler (lines 154-163) resolves with the
matched URL after `cleanup()`; the error handler (lines 169-172) runs
`cleanup(); resolve(null)`; the close handler (lines 174-176) only
deletes the registry entry.  `removeAllListeners()` detaches all of the
handlers, so events after a `cleanup` change nothing. -/

/-- An event delivered to the promise executor. -/
inductive SEv where
  | stdout (data : String)
  | stderr (data : String)
  | spawnErr
  | closed (code : Option Int)
  | timeoutFire
deriving DecidableEq

/-- Observable state of one `startPreviewAndGetUrl` call. -/
structure SessionState where
  resolvedVal : Option (Option String)
  listenersRemoved : Bool
  timeoutCleared : Bool
  notices : List String
  killSignals : Nat
  inRegistry : Bool
deriving DecidableEq

/-- The notice of the timeout callback (line 151). -/
def timeoutNotice : String := "Preview startup timed out"

/-- State right after the executor body ran: process spawned, handlers
installed, entry set in `activePreviewProcesses` (line 178). -/
def initSession : SessionState :=
  { resolvedVal := none, listenersRemoved := false, timeoutCleared := false,
    notices := [], killSignals := 0, inRegistry := true }

/-- `resolve(r)`: the first resolution wins, later ones are ignored. -/
def resolveWith (r : Option String) (st : SessionState) : SessionState :=
  if st.resolvedVal.isSome then st else { st with resolvedVal := some r }

/-- `cleanup()` (lines 143-146): `clearTimeout` and `removeAllListeners`. -/
def cleanup (st : SessionState) : SessionState :=
  { st with timeoutCleared := true, listenersRemoved := true }

/-- One event, handled as the installed callbacks handle it. -/
def sessionStep (st : SessionState) : SEv → SessionState
  | .timeoutFire =>
    if st.timeoutCleared then st
    else
      let st1 := resolveWith none (cleanup st)
      { st1 with notices := st1.notices ++ [timeoutNotice] }
  | .stdout data =>
    if st.listenersRemoved then st
    else
      match findUrl data with
      | some u => resolveWith (some u) (cleanup st)
      | none => st
  | .stderr _ => st
  | .spawnErr =>
    if st.listenersRemoved then st
    else resolveWith none (cleanup st)
  | .closed _ =>
    if st.listenersRemoved then st
    else { st with inRegistry := false }

/-- One `startPreviewAndGetUrl` call observed over a sequence of events. -/
def runSession (evs : List SEv) : SessionState :=
  evs.foldl sessionStep initSession

/-! ## The registry: `activePreviewProcesses`

Embedding of the plugin's map from document key to child process,
together with the process objects themselves: a process records whether
`kill()` was already called (`ChildProcess.killed`) and how many kill
signals it received.  `stopPreview` (src/src/main.ts lines 207-215)
kills the process of the key when it is not yet killed and deletes the
entry; `stopAllPreviews` (lines 217-224) does the same for every entry
and clears the map; `startPreview` (lines 190-205) is a no-op when the
key is present and otherwise spawns and registers a fresh process;
`toggleExternalPreview` (lines 182-188) dispatches on presence;
`startPreviewAndGetUrl` (lines 135-180) spawns unconditionally and
registers the fresh process under the key (line 178), overwriting any
entry already there. -/

/-- One spawned child process, as the registry observes it. -/
structure Proc where
  killed : Bool
  killCount : Nat
deriving DecidableEq

/-- Processes ever spawned (a pid is an index into this list) and the
`activePreviewProcesses` map in insertion order. -/
structure PluginState where
  procs : List Proc
  registry : List (String × Nat)
deriving DecidableEq

/-- The state before any preview was started. -/
def emptyState : PluginState := { procs := [], registry := [] }

/-- `Map.set`: replace the value of a present key, else append. -/
def setKey {α : Type} : List (String × α) → String → α → List (String × α)
  | [], k, v => [(k, v)]
  | (k', v') :: rest, k, v =>
    if k' == k then (k', v) :: rest else (k', v') :: setKey rest k v

/-- `Map.delete`: remove the entry of the key. -/
def delKey {α : Type} : List (String × α) → String → List (String × α)
  | [], _ => []
  | (k', v') :: rest, k =>
    if k' == k then rest else (k', v') :: delKey rest k

/-- `if (!process.killed) { process.kill(); }` on the process `pid`. -/
def killIfAlive (procs : List Proc) (pid : Nat) : List Proc :=
  match procs[pid]? with
  | some p => if p.killed then procs else procs.set pid ⟨true, p.killCount + 1⟩
  | none => procs

/-- `spawn(...)`: a fresh, unkilled process; its pid is the old length. -/
def spawnProc (st : PluginState) : Nat × PluginState :=
  (st.procs.length, { st with procs := st.procs ++ [⟨false, 0⟩] })

/-- `startPreview` (lines 190-205): returns early when the key is
present, else spawns and registers.  The function returns no endpoint. -/
def startPreview (k : String) (st : PluginState) : PluginState :=
  if (st.registry.lookup k).isSome then st
  else
    { procs := (spawnProc st).2.procs,
      registry := setKey st.registry k (spawnProc st).1 }

/-- The spawn-and-register effect of `startPreviewAndGetUrl`
(lines 137-140 and 178): no presence check, the key is set
unconditionally. -/
def startPreviewAndGetUrlSpawn (k : String) (st : PluginState) : PluginState :=
  { procs := (spawnProc st).2.procs,
    registry := setKey st.registry k (spawnProc st).1 }

/-- `stopPreview` (lines 207-215). -/
def stopPreview (k : String) (st : PluginState) : PluginState :=
  match st.registry.lookup k with
  | some pid =>
    { procs := killIfAlive st.procs pid, registry := delKey st.registry k }
  | none => st

/-- `stopAllPreviews` (lines 217-224): kill every entry's process unless
already killed, then clear the map. -/
def stopAllPreviews (st : PluginState) : PluginState :=
  { procs := st.registry.foldl (fun ps kv => killIfAlive ps kv.2) st.procs,
    registry := [] }

/-- `toggleExternalPreview` (lines 182-188). -/
def toggleExternalPreview (k : String) (st : PluginState) : PluginState :=
  if (st.registry.lookup k).isSome then stopPreview k st else startPreview k st

/-- A registry operation a caller can issue. -/
inductive ROp where
  | startOp (k : String)
  | stopOp (k : String)
  | toggleOp (k : String)

/-- Apply one operation. -/
def applyOp (st : PluginState) : ROp → PluginState
  | .startOp k => startPreview k st
  | .stopOp k => stopPreview k st
  | .toggleOp k => toggleExternalPreview k st

/-- The state after a sequence of start/stop/toggle operations. -/
def applyOps (ops : List ROp) : PluginState :=
  ops.foldl applyOp emptyState

/-- The pids currently registered. -/
def regPids (st : PluginState) : List Nat := st.registry.map Prod.snd

/-- The `forEach` sweep of `stopAllPreviews` over the registry entries. -/
def foldKill (entries : List (String × Nat)) (ps : List Proc) : List Proc :=
  entries.foldl (fun acc kv => killIfAlive acc kv.2) ps

/-! ## Settings: `loadSettings` and `DEFAULT_SETTINGS`

Embedding of src/src/main.ts lines 15-27 and 87-89:
`this.settings = Object.assign({}, DEFAULT_SETTINGS, await this.loadData())`.
A plain JavaScript object is an association list of string keys in
insertion order; `Object.assign` copies the source's properties onto the
target in order, replacing a present key's value and appending an
absent key.  `loadData()` resolves with the persisted data or `null`
(modelled as `Option`); `Object.assign` skips a null source. -/

/-- A JSON-representable settings value. -/
inductive SettingValue where
  | str (s : String)
  | bool (b : Bool)
deriving DecidableEq

/-- A plain object: string keys in insertion order. -/
abbrev JsObj : Type := List (String × SettingValue)

/-- `Object.assign(target, src)`: copy `src`'s properties in order. -/
def objAssign (target src : JsObj) : JsObj :=
  src.foldl (fun acc kv => setKey acc kv.1 kv.2) target

/-- `DEFAULT_SETTINGS` (src/src/main.ts lines 22-27). -/
def DEFAULT_SETTINGS : JsObj :=
  [("quartoPath", SettingValue.str "quarto"),
   ("autoPreview", SettingValue.bool false),
   ("enableQmdLinking", SettingValue.bool false),
   ("useWebViewer", SettingValue.bool true)]

/-- `loadSettings` (src/src/main.ts lines 87-89). -/
def loadSettings (persisted : Option JsObj) : JsObj :=
  objAssign (objAssign [] DEFAULT_SETTINGS) (persisted.getD [])

/-! ## Quarto file detection and the command entry points

`isQuartoFile` (src/src/main.ts lines 95-97) and the guard shared by the
ribbon-icon callback (lines 44-51) and the command callback (lines
56-63): if the active view's file is a Quarto file, `togglePreview` is
invoked on it; otherwise the notice `Current file is not a Quarto
document` is shown and nothing else happens.  `togglePreview` dispatches
to the web-viewer or the external toggle; its registry effect is
modelled by `toggleExternalPreview`.  A rejected file reaches neither
branch, so the registry stays as it is. -/

/-- The fields of `TFile` the plugin reads. -/
structure TFile where
  path : String
  extension : String
deriving DecidableEq

/-- `isQuartoFile` (src/src/main.ts lines 95-97). -/
def isQuartoFile (f : TFile) : Bool := f.extension == "qmd"

/-- The notice shown for a non-Quarto active file (lines 49 and 61). -/
def notQuartoNotice : String := "Current file is not a Quarto document"

/-- The ribbon/command callback on the active file, returning the new
registry state and the notices shown. -/
def commandCallback (activeFile : Option TFile) (st : PluginState) :
    PluginState × List String :=
  match activeFile with
  | some f =>
    if isQuartoFile f then (toggleExternalPreview f.path st, [])
    else (st, [notQuartoNotice])
  | none => (st, [notQuartoNotice])

/-! ## The spawn configuration

`startPreviewAndGetUrl` (src/src/main.ts lines 137-140) and
`startPreview` (lines 195-198) both run
`spawn(this.settings.quartoPath, ['preview', filePath], { cwd: workingDir })`
with `filePath` the document's absolute path (the vault adapter's
`getFullPath`) and `workingDir = path.dirname(filePath)`. -/

/-- What is passed to `spawn`. -/
structure SpawnConfig where
  cmd : String
  args : List String
  cwd : String
deriving DecidableEq

/-- Index of the last `/` in the character list, if any. -/
def lastSlash : List Char → Option Nat
  | [] => none
  | c :: rest =>
    match lastSlash rest with
    | some i => some (i + 1)
    | none => if c == '/' then some 0 else none

/-- Model of Node's `path.dirname` on POSIX paths with no trailing
separator: everything before the last `/`; `/` when the last `/` is
first; `.` when there is none. -/
def dirname (p : String) : String :=
  (lastSlash p.data).elim "." fun i =>
    if i = 0 then "/" else (p.data.take i).asString

/-- The spawn configuration both start paths build (lines 137-140,
195-198): command `settings.quartoPath`, arguments
`['preview', filePath]`, working directory `path.dirname(filePath)`. -/
def previewSpawnConfig (quartoPath absPath : String) : SpawnConfig :=
  { cmd := quartoPath, args := ["preview", absPath], cwd := dirname absPath }

/-! ## The child environment (README variant `startPreview`)

src/README.md (the `startPreview` of the snapshot there, around lines
745-765): `const envVars = { ...process.env }` and, when
`settings.quartoTypst.trim()` is truthy (a non-empty string),
`envVars.QUARTO_TYPST = settings.quartoTypst.trim()`; the spawn then
passes `env: envVars`.  `src/src/main.ts` passes no `env` option at all,
so its children inherit the parent environment unchanged — the
zero-override case. -/

/-- JavaScript `String.prototype.trim`: strip leading and trailing
whitespace. -/
def jsTrim (s : String) : String :=
  (((s.data.dropWhile isWsChar).reverse.dropWhile isWsChar).reverse).asString

/-- The environment object the README variant builds for the child. -/
def envVarsFor (quartoTypst : String) (parentEnv : List (String × String)) :
    List (String × String) :=
  if jsTrim quartoTypst = "" then parentEnv
  else setKey parentEnv "QUARTO_TYPST" (jsTrim quartoTypst)

/-- The configured overrides, as the claim describes them: just
`QUARTO_TYPST` when the setting's trimmed value is non-empty. -/
def quartoTypstOverrides (quartoTypst : String) : List (String × String) :=
  if jsTrim quartoTypst = "" then []
  else [("QUARTO_TYPST", jsTrim quartoTypst)]

/-- Merge in the claim's words: apply each override to the inherited
environment, replacing the inherited value on key collision. -/
def mergeEnv (parentEnv overrides : List (String × String)) :
    List (String × String) :=
  overrides.foldl (fun acc kv => setKey acc kv.1 kv.2) parentEnv

theorem leadsWith_iff (pre l : List Char) :
    leadsWith pre l = true ↔ ∃ rest, l = pre ++ rest := by
  induction pre generalizing l with
  | nil => simp [leadsWith]
  | cons a as ih =>
    cases l with
    | nil => simp [leadsWith]
    | cons b bs =>
      simp only [leadsWith, Bool.and_eq_true, beq_iff_eq, ih, List.cons_append,
        List.cons.injEq]
      constructor
      · rintro ⟨h1, rest, h2⟩; exact ⟨rest, h1.symm, h2⟩
      · rintro ⟨rest, h1, h2⟩; exact ⟨h1.symm, rest, h2⟩

theorem takeWhile_append_all {p : Char → Bool} {l₁ : List Char} (l₂ : List Char)
    (h : ∀ c ∈ l₁, p c = true) :
    List.takeWhile p (l₁ ++ l₂) = l₁ ++ List.takeWhile p l₂ := by
  induction l₁ with
  | nil => rfl
  | cons a as ih =>
    have hrest : List.takeWhile p (as ++ l₂) = as ++ List.takeWhile p l₂ :=
      ih fun c hc => h c (List.mem_cons_of_mem a hc)
    have ha : p a = true := h a (List.mem_cons_self a as)
    rw [List.cons_append, List.takeWhile_cons, ha, if_pos rfl, hrest,
      List.cons_append]

theorem dropWhile_append_all {p : Char → Bool} {l₁ : List Char} (l₂ : List Char)
    (h : ∀ c ∈ l₁, p c = true) :
    List.dropWhile p (l₁ ++ l₂) = List.dropWhile p l₂ := by
  induction l₁ with
  | nil => rfl
  | cons a as ih =>
    have ha : p a = true := h a (List.mem_cons_self a as)
    rw [List.cons_append, List.dropWhile_cons, ha, if_pos rfl]
    exact ih fun c hc => h c (List.mem_cons_of_mem a hc)

theorem matchHere_isSome_iff (cs : List Char) :
    (matchHere cs).isSome = true ↔ MarkerAt cs := by
  constructor
  · intro h
    unfold matchHere at h
    split at h
    case isFalse => simp at h
    case isTrue hlead =>
      obtain ⟨rest, hrest⟩ := (leadsWith_iff _ _).mp hlead
      have hafter : afterMarker cs = rest := by
        rw [afterMarker, hrest]; exact List.drop_left _ _
      split at h
      case isTrue => simp at h
      case isFalse hws =>
        split at h
        case isFalse => simp at h
        case isTrue hhttp =>
          obtain ⟨rest3, hrest3⟩ := (leadsWith_iff _ _).mp hhttp
          split at h
          case isTrue => simp at h
          case isFalse hurl =>
            have hurlrun : urlRun cs =
                List.takeWhile (fun c => !isWsChar c) rest3 := by
              rw [urlRun, hrest3, List.drop_left]
            have hwsrun : wsRun cs = List.takeWhile isWsChar rest := by
              rw [wsRun, hafter]
            have hdw : List.dropWhile isWsChar rest = httpScheme ++ rest3 := by
              rw [← hrest3, afterWs, hafter]
            refine ⟨List.takeWhile isWsChar rest, rest3, ?_, ?_, ?_, ?_⟩
            · have hsplit :
                  List.takeWhile isWsChar rest ++ (httpScheme ++ rest3) = rest := by
                rw [← hdw]
                exact List.takeWhile_append_dropWhile isWsChar rest
              rw [hrest]
              conv_lhs => rw [← hsplit]
              simp [List.append_assoc]
            · intro hnil
              rw [hwsrun, hnil] at hws; simp at hws
            · intro c hc; exact List.mem_takeWhile_imp hc
            · rw [hurlrun] at hurl
              cases rest3 with
              | nil => simp at hurl
              | cons c t =>
                by_cases hcw : isWsChar c
                · simp [List.takeWhile_cons, hcw] at hurl
                · simp [headNonWs, hcw]
  · rintro ⟨ws, rest, hcs, hwsne, hwsall, hhead⟩
    have hafter : afterMarker cs = ws ++ (httpScheme ++ rest) := by
      rw [afterMarker, hcs]
      rw [List.append_assoc, List.append_assoc]
      exact List.drop_left _ _
    have hh : isWsChar 'h' = false := by decide
    have htake : wsRun cs = ws := by
      rw [wsRun, hafter, takeWhile_append_all _ hwsall]
      simp [httpScheme, List.takeWhile_cons, hh]
    have hdropw : afterWs cs = httpScheme ++ rest := by
      rw [afterWs, hafter, dropWhile_append_all _ hwsall]
      simp [httpScheme, List.dropWhile_cons, hh]
    have hlead : leadsWith browseMarker cs = true :=
      (leadsWith_iff _ _).mpr ⟨ws ++ httpScheme ++ rest, by
        rw [hcs]; simp [List.append_assoc]⟩
    have hurlrun : urlRun cs = List.takeWhile (fun c => !isWsChar c) rest := by
      rw [urlRun, hdropw, List.drop_left]
    have hwsempty : (wsRun cs).isEmpty = false := by
      rw [htake]
      cases ws with
      | nil => exact absurd rfl hwsne
      | cons a t => simp
    have hhttp : leadsWith httpScheme (afterWs cs) = true :=
      (leadsWith_iff _ _).mpr ⟨rest, hdropw⟩
    have hurlne : (urlRun cs).isEmpty = false := by
      rw [hurlrun]
      cases rest with
      | nil => simp [headNonWs] at hhead
      | cons c t =>
        simp only [headNonWs, Bool.not_eq_true'] at hhead
        simp [List.takeWhile_cons, hhead]
    unfold matchHere
    rw [if_pos hlead, hwsempty, if_neg (by simp), if_pos hhttp, hurlne,
      if_neg (by simp)]
    rfl

theorem findUrlAux_isSome_iff (cs : List Char) :
    (findUrlAux cs).isSome = true ↔ IsMarkerLine cs := by
  induction cs with
  | nil =>
    simp only [findUrlAux]
    constructor
    · intro h; simp at h
    · rintro ⟨pre, rest, hdec, ws, r2, hr, -⟩
      exfalso
      have hrest : rest = [] := (List.append_eq_nil.mp hdec.symm).2
      rw [hrest] at hr
      have h2 : browseMarker = [] := by
        have a0 := hr.symm
        have a1 := (List.append_eq_nil.mp a0).1
        have a2 := (List.append_eq_nil.mp a1).1
        exact (List.append_eq_nil.mp a2).1
      exact absurd h2 (by decide)
  | cons c rest ih =>
    simp only [findUrlAux]
    cases hmh : matchHere (c :: rest) with
    | some u =>
      simp only [Option.isSome_some, true_iff]
      have : MarkerAt (c :: rest) := by
        rw [← matchHere_isSome_iff, hmh]; rfl
      exact ⟨[], c :: rest, by simp, this⟩
    | none =>
      rw [ih]
      constructor
      · rintro ⟨pre, r2, hdec, hm⟩
        exact ⟨c :: pre, r2, by rw [hdec]; rfl, hm⟩
      · rintro ⟨pre, r2, hdec, hm⟩
        cases pre with
        | nil =>
          simp only [List.nil_append] at hdec
          rw [← hdec] at hm
          rw [← matchHere_isSome_iff] at hm
          rw [hmh] at hm
          simp at hm
        | cons p ps =>
          refine ⟨ps, r2, ?_, hm⟩
          have := hdec
          simp only [List.cons_append, List.cons.injEq] at this
          exact this.2

theorem sessionStep_killSignals (st : SessionState) (e : SEv) :
    (sessionStep st e).killSignals = st.killSignals := by
  cases e with
  | timeoutFire =>
    simp only [sessionStep]
    split
    · rfl
    · simp only [resolveWith, cleanup]
      split <;> rfl
  | stdout data =>
    simp only [sessionStep]
    split
    · rfl
    · split
      · simp only [resolveWith, cleanup]
        split <;> rfl
      · rfl
  | stderr data => rfl
  | spawnErr =>
    simp only [sessionStep]
    split
    · rfl
    · simp only [resolveWith, cleanup]
      split <;> rfl
  | closed code =>
    simp only [sessionStep]
    split <;> rfl

theorem foldl_sessionStep_killSignals (evs : List SEv) (st : SessionState) :
    (evs.foldl sessionStep st).killSignals = st.killSignals := by
  induction evs generalizing st with
  | nil => rfl
  | cons e rest ih => rw [List.foldl_cons, ih, sessionStep_killSignals]

theorem sessionStep_inRegistry (st : SessionState) (e : SEv) :
    st.inRegistry = false → (sessionStep st e).inRegistry = false := by
  intro h
  cases e with
  | timeoutFire =>
    simp only [sessionStep]
    split
    · exact h
    · simp only [resolveWith, cleanup]
      split <;> exact h
  | stdout data =>
    simp only [sessionStep]
    split
    · exact h
    · split
      · simp only [resolveWith, cleanup]
        split <;> exact h
      · exact h
  | stderr data => exact h
  | spawnErr =>
    simp only [sessionStep]
    split
    · exact h
    · simp only [resolveWith, cleanup]
      split <;> exact h
  | closed code =>
    simp only [sessionStep]
    split
    · exact h
    · rfl

theorem foldl_sessionStep_inRegistry (evs : List SEv) (st : SessionState)
    (h : st.inRegistry = false) :
    (evs.foldl sessionStep st).inRegistry = false := by
  induction evs generalizing st with
  | nil => exact h
  | cons e rest ih => exact ih _ (sessionStep_inRegistry st e h)

theorem killIfAlive_length (ps : List Proc) (pid : Nat) :
    (killIfAlive ps pid).length = ps.length := by
  cases h : ps[pid]? with
  | none => simp [killIfAlive, h]
  | some p =>
    by_cases hk : p.killed = true
    · simp [killIfAlive, h, hk]
    · simp only [Bool.not_eq_true] at hk
      simp [killIfAlive, h, hk]

theorem killIfAlive_other (ps : List Proc) (pid i : Nat) (hne : i ≠ pid) :
    (killIfAlive ps pid)[i]? = ps[i]? := by
  cases h : ps[pid]? with
  | none => simp [killIfAlive, h]
  | some p =>
    by_cases hk : p.killed = true
    · simp [killIfAlive, h, hk]
    · simp only [Bool.not_eq_true] at hk
      simp only [killIfAlive, h, hk, Bool.false_eq_true, if_false]
      exact List.getElem?_set_ne (fun he => hne he.symm)

theorem killIfAlive_killed (ps : List Proc) (pid i : Nat) (p : Proc)
    (h : ps[i]? = some p) (hk : p.killed = true) :
    (killIfAlive ps pid)[i]? = some p := by
  by_cases hip : i = pid
  · subst hip
    simp [killIfAlive, h, hk]
  · rw [killIfAlive_other ps pid i hip, h]

theorem killIfAlive_target (ps : List Proc) (pid : Nat) (p : Proc)
    (h : ps[pid]? = some p) (hk : p.killed = false) :
    (killIfAlive ps pid)[pid]? = some ⟨true, p.killCount + 1⟩ := by
  have hlt : pid < ps.length := by
    by_contra hge
    rw [List.getElem?_eq_none (Nat.le_of_not_lt hge)] at h
    exact Option.noConfusion h
  simp only [killIfAlive, h, hk, Bool.false_eq_true, if_false]
  exact List.getElem?_set_eq_of_lt _ hlt

theorem stopAllPreviews_eq (st : PluginState) :
    stopAllPreviews st = { procs := foldKill st.registry st.procs, registry := [] } :=
  rfl

theorem foldKill_killed (entries : List (String × Nat)) (ps : List Proc)
    (i : Nat) (p : Proc) (h : ps[i]? = some p) (hk : p.killed = true) :
    (foldKill entries ps)[i]? = some p := by
  induction entries generalizing ps with
  | nil => exact h
  | cons kv rest ih =>
    exact ih (killIfAlive ps kv.2) (killIfAlive_killed ps kv.2 i p h hk)

theorem foldKill_notMem (entries : List (String × Nat)) (ps : List Proc)
    (i : Nat) (h : i ∉ entries.map Prod.snd) :
    (foldKill entries ps)[i]? = ps[i]? := by
  induction entries generalizing ps with
  | nil => rfl
  | cons kv rest ih =>
    simp only [List.map_cons, List.mem_cons, not_or] at h
    rw [foldKill, List.foldl_cons, ← foldKill, ih _ h.2,
      killIfAlive_other ps kv.2 i h.1]

theorem foldKill_mem (entries : List (String × Nat)) (ps : List Proc)
    (i : Nat) (p : Proc) (h : ps[i]? = some p) (hk : p.killed = false)
    (hm : i ∈ entries.map Prod.snd) :
    (foldKill entries ps)[i]? = some ⟨true, p.killCount + 1⟩ := by
  induction entries generalizing ps with
  | nil => simp at hm
  | cons kv rest ih =>
    rw [foldKill, List.foldl_cons, ← foldKill]
    by_cases hip : kv.2 = i
    · subst hip
      exact foldKill_killed rest _ kv.2 _ (killIfAlive_target ps kv.2 p h hk) rfl
    · simp only [List.map_cons, List.mem_cons] at hm
      rcases hm with hm | hm
      · exact absurd hm.symm hip
      · exact ih (killIfAlive ps kv.2) (by
          rw [killIfAlive_other ps kv.2 i (fun he => hip he.symm)]; exact h) hm

/-- Full behaviour of `stopAllPreviews` on an arbitrary plugin state:
the registry is cleared, an unkilled registered process gets exactly one
kill signal, and every other process is untouched. -/
theorem stopAllPreviews_spec (st : PluginState) :
    (stopAllPreviews st).registry = [] ∧
    ∀ i p, st.procs[i]? = some p →
      (p.killed = false → i ∈ regPids st →
        (stopAllPreviews st).procs[i]? = some ⟨true, p.killCount + 1⟩) ∧
      (p.killed = true → (stopAllPreviews st).procs[i]? = some p) ∧
      (i ∉ regPids st → (stopAllPreviews st).procs[i]? = some p) := by
  refine ⟨rfl, fun i p h => ⟨?_, ?_, ?_⟩⟩
  · intro hk hm
    rw [stopAllPreviews_eq]
    exact foldKill_mem st.registry st.procs i p h hk hm
  · intro hk
    rw [stopAllPreviews_eq]
    exact foldKill_killed st.registry st.procs i p h hk
  · intro hm
    rw [stopAllPreviews_eq]
    simp only
    rw [foldKill_notMem st.registry st.procs i hm, h]

theorem lookup_none_of_not_mem {α : Type} (l : List (String × α)) (k : String)
    (h : k ∉ l.map Prod.fst) : l.lookup k = none := by
  induction l with
  | nil => rfl
  | cons kv rest ih =>
    simp only [List.map_cons, List.mem_cons, not_or] at h
    have hne : (k == kv.1) = false := beq_eq_false_iff_ne.mpr h.1
    cases kv with
    | mk k' v => simp only [List.lookup] at hne ⊢; rw [hne]; exact ih h.2

theorem lookup_delKey_self {α : Type} (l : List (String × α)) (k : String)
    (hnd : (l.map Prod.fst).Nodup) : (delKey l k).lookup k = none := by
  induction l with
  | nil => rfl
  | cons kv rest ih =>
    cases kv with
    | mk k' v =>
      simp only [List.map_cons, List.nodup_cons] at hnd
      simp only [delKey]
      by_cases he : k' == k
      · rw [if_pos he]
        have : k = k' := (beq_iff_eq.mp he).symm
        subst this
        exact lookup_none_of_not_mem rest k hnd.1
      · rw [if_neg he]
        have hk'n : k' ≠ k := fun hh => he (beq_iff_eq.mpr hh)
        have hkne : (k == k') = false :=
          beq_eq_false_iff_ne.mpr (fun hh => hk'n hh.symm)
        simp only [List.lookup, hkne]
        exact ih hnd.2

theorem lookup_setKey_self {α : Type} (l : List (String × α)) (k : String)
    (v : α) : (setKey l k v).lookup k = some v := by
  induction l with
  | nil => simp [setKey, List.lookup]
  | cons kv rest ih =>
    cases kv with
    | mk k' v' =>
      simp only [setKey]
      by_cases he : k' == k
      · rw [if_pos he]
        have : (k == k') = true := by
          rw [beq_iff_eq] at he ⊢; exact he.symm
        simp [List.lookup, this]
      · rw [if_neg he]
        have hk'n : k' ≠ k := fun hh => he (beq_iff_eq.mpr hh)
        have hkne : (k == k') = false :=
          beq_eq_false_iff_ne.mpr (fun hh => hk'n hh.symm)
        simp only [List.lookup, hkne]
        exact ih

theorem lookup_setKey_other {α : Type} (l : List (String × α)) (k k2 : String)
    (v : α) (hne : k2 ≠ k) : (setKey l k v).lookup k2 = l.lookup k2 := by
  induction l with
  | nil => simp [setKey, List.lookup, beq_eq_false_iff_ne.mpr hne]
  | cons kv rest ih =>
    cases kv with
    | mk k' v' =>
      simp only [setKey]
      by_cases he : k' == k
      · rw [if_pos he]
        have hk' : k' = k := beq_iff_eq.mp he
        subst hk'
        simp [List.lookup, beq_eq_false_iff_ne.mpr hne]
      · rw [if_neg he]
        by_cases h2 : k2 = k'
        · have h2t : (k2 == k') = true := beq_iff_eq.mpr h2
          simp [List.lookup, h2t]
        · have h2f : (k2 == k') = false := beq_eq_false_iff_ne.mpr h2
          simp only [List.lookup, h2f]
          exact ih

theorem lookup_objAssign {t s : JsObj} (hnd : (s.map Prod.fst).Nodup)
    (k : String) :
    (objAssign t s).lookup k =
      match s.lookup k with
      | some v => some v
      | none => t.lookup k := by
  induction s generalizing t with
  | nil => rfl
  | cons kv rest ih =>
    cases kv with
    | mk k0 v0 =>
      simp only [List.map_cons, List.nodup_cons] at hnd
      have hstep : objAssign t ((k0, v0) :: rest) = objAssign (setKey t k0 v0) rest :=
        rfl
      rw [hstep, ih hnd.2]
      by_cases hk : k = k0
      · subst hk
        rw [lookup_none_of_not_mem rest k hnd.1]
        simp [List.lookup, lookup_setKey_self]
      · have hkne : (k == k0) = false := beq_eq_false_iff_ne.mpr hk
        simp only [List.lookup, hkne]
        cases rest.lookup k with
        | none => simp [lookup_setKey_other t k0 k v0 hk]
        | some v => simp

theorem lastSlash_none_of_not_mem (l : List Char) (h : '/' ∉ l) :
    lastSlash l = none := by
  induction l with
  | nil => rfl
  | cons c rest ih =>
    simp only [List.mem_cons, not_or] at h
    have hc : (c == '/') = false := beq_eq_false_iff_ne.mpr (fun e => h.1 e.symm)
    simp [lastSlash, ih h.2, hc]

theorem lastSlash_concat (dir nm : List Char) (h : lastSlash nm = none) :
    lastSlash (dir ++ '/' :: nm) = some dir.length := by
  induction dir with
  | nil => simp [lastSlash, h]
  | cons c rest ih => simp [lastSlash, ih]

theorem asString_data (s : String) : s.data.asString = s := rfl

theorem dirname_concat (dir nm : String) (hdir : dir ≠ "")
    (hnm : '/' ∉ nm.data) : dirname (dir ++ "/" ++ nm) = dir := by
  have hdata : (dir ++ "/" ++ nm).data = dir.data ++ '/' :: nm.data := by
    simp [String.data_append]
  have hls : lastSlash (dir ++ "/" ++ nm).data = some dir.data.length := by
    rw [hdata]
    exact lastSlash_concat dir.data nm.data (lastSlash_none_of_not_mem nm.data hnm)
  have hlen : dir.data.length ≠ 0 := by
    intro h0
    have hde : dir.data = [] := List.length_eq_zero.mp h0
    apply hdir
    cases dir with
    | mk d => exact congrArg String.mk hde
  rw [dirname, hls]
  simp only [Option.elim_some, if_neg hlen]
  rw [hdata, List.take_left]
  exact asString_data dir

theorem matchHere_eq_some (cs u : List Char) (h : matchHere cs = some u) :
    ∃ ws url post, cs = browseMarker ++ ws ++ (httpScheme ++ url) ++ post ∧
      u = httpScheme ++ url ∧ ws ≠ [] ∧ (∀ c ∈ ws, isWsChar c = true) ∧
      url ≠ [] ∧ ∀ c ∈ url, isWsChar c = false := by
  unfold matchHere at h
  split at h
  case isFalse => exact absurd h (by simp)
  case isTrue hlead =>
    obtain ⟨rest, hrest⟩ := (leadsWith_iff _ _).mp hlead
    have hafter : afterMarker cs = rest := by
      rw [afterMarker, hrest]; exact List.drop_left _ _
    split at h
    case isTrue => exact absurd h (by simp)
    case isFalse hws =>
      split at h
      case isFalse => exact absurd h (by simp)
      case isTrue hhttp =>
        obtain ⟨rest3, hrest3⟩ := (leadsWith_iff _ _).mp hhttp
        split at h
        case isTrue => exact absurd h (by simp)
        case isFalse hurl =>
          have hu : httpScheme ++ urlRun cs = u := Option.some.inj h
          have hurlrun : urlRun cs =
              List.takeWhile (fun c => !isWsChar c) rest3 := by
            rw [urlRun, hrest3, List.drop_left]
          have hdw : List.dropWhile isWsChar rest = httpScheme ++ rest3 := by
            rw [← hrest3, afterWs, hafter]
          have hsplit :
              List.takeWhile isWsChar rest ++ (httpScheme ++ rest3) = rest := by
            rw [← hdw]
            exact List.takeWhile_append_dropWhile isWsChar rest
          have hr3 :
              urlRun cs ++ List.dropWhile (fun c => !isWsChar c) rest3 = rest3 := by
            rw [hurlrun]
            exact List.takeWhile_append_dropWhile _ rest3
          refine ⟨List.takeWhile isWsChar rest,
            List.takeWhile (fun c => !isWsChar c) rest3,
            List.dropWhile (fun c => !isWsChar c) rest3,
            ?_, ?_, ?_, ?_, ?_, ?_⟩
          · rw [hrest]
            conv_lhs => rw [← hsplit]
            conv_lhs =>
              rw [← List.takeWhile_append_dropWhile (fun c => !isWsChar c) rest3]
            simp [List.append_assoc]
          · rw [← hu, hurlrun]
          · intro hnil
            exact hws (by rw [wsRun, hafter, hnil]; rfl)
          · intro c hc; exact List.mem_takeWhile_imp hc
          · intro hnil
            exact hurl (by rw [hurlrun, hnil]; rfl)
          · intro c hc
            have := List.mem_takeWhile_imp hc
            simpa using this

theorem findUrlAux_eq_some (cs u : List Char) (h : findUrlAux cs = some u) :
    ∃ pre ws url post,
      cs = pre ++ browseMarker ++ ws ++ (httpScheme ++ url) ++ post ∧
      u = httpScheme ++ url ∧ ws ≠ [] ∧ (∀ c ∈ ws, isWsChar c = true) ∧
      url ≠ [] ∧ ∀ c ∈ url, isWsChar c = false := by
  induction cs with
  | nil => exact absurd h (by simp [findUrlAux])
  | cons c rest ih =>
    unfold findUrlAux at h
    cases hmh : matchHere (c :: rest) with
    | some u0 =>
      rw [hmh] at h
      have hu : u0 = u := Option.some.inj h
      obtain ⟨ws, url, post, hdec, hval, hws, hwall, hun, hual⟩ :=
        matchHere_eq_some (c :: rest) u0 hmh
      exact ⟨[], ws, url, post, by simpa using hdec, hu ▸ hval, hws, hwall,
        hun, hual⟩
    | none =>
      rw [hmh] at h
      obtain ⟨pre, ws, url, post, hdec, hval, hws, hwall, hun, hual⟩ := ih h
      refine ⟨c :: pre, ws, url, post, ?_, hval, hws, hwall, hun, hual⟩
      rw [hdec]
      simp [List.append_assoc]

/-- C1, counterexample: a run in which the process writes nothing until
the 10000 ms timeout fires.  The start fails with the timeout notice,
but the spawned process receives zero kill signals — the claim demands
exactly one, delivered before the failure is reported — and the
registry entry survives. -/
theorem c1_counterexample :
    (runSession [SEv.timeoutFire]).notices = [timeoutNotice] ∧
    (runSession [SEv.timeoutFire]).resolvedVal = some none ∧
    ¬ (runSession [SEv.timeoutFire]).killSignals = 1 := by decide

/-- C1, amended: when no readiness marker is observed within the
timeout, the start operation fails (the promise resolves `null` and the
timeout notice is shown), but no kill signal is ever sent — the
executor of `startPreviewAndGetUrl` contains no `kill()` call at all —
and the registry entry for the key is not removed, since `cleanup()`
also detached the `close` listener. -/
theorem c1_timeout_reports_without_kill :
    (∀ evs : List SEv, (runSession evs).killSignals = 0) ∧
    (runSession [SEv.timeoutFire]).resolvedVal = some none ∧
    (runSession [SEv.timeoutFire]).notices = [timeoutNotice] ∧
    (runSession [SEv.timeoutFire]).inRegistry = true := by
  refine ⟨fun evs => ?_, by decide, by decide, by decide⟩
  exact foldl_sessionStep_killSignals evs initSession

/-- C3, counterexample: the process exits with code 1 before any marker.
The start operation has not failed at that point (the promise is still
pending), and when it eventually fails — via the timeout — the entire
observable outcome is identical to an exit with code 17 and carries
only the timeout notice, so no `CrashError` holding the exit code is
reported. -/
theorem c3_counterexample :
    (runSession [SEv.closed (some 1)]).resolvedVal = none ∧
    runSession [SEv.closed (some 1), SEv.timeoutFire] =
      runSession [SEv.closed (some 17), SEv.timeoutFire] ∧
    (runSession [SEv.closed (some 1), SEv.timeoutFire]).notices
      = [timeoutNotice] ∧
    (runSession [SEv.closed (some 1), SEv.timeoutFire]).inRegistry = false := by
  decide

/-- C3, amended: when the process exits (with any code) before a marker
is found, the close handler removes the key from the registry — and the
registry entry stays removed for the rest of the run — but the start
operation does not fail with a crash error carrying the exit code: the
promise stays pending until the timeout resolves it to `null` with the
timeout notice, independent of the exit code. -/
theorem c3_close_cleans_registry_without_crash_error :
    (∀ (code : Option Int) (evs : List SEv),
      (runSession (SEv.closed code :: evs)).inRegistry = false) ∧
    (∀ code : Option Int,
      runSession [SEv.closed code, SEv.timeoutFire] =
        { resolvedVal := some none, listenersRemoved := true,
          timeoutCleared := true, notices := [timeoutNotice],
          killSignals := 0, inRegistry := false }) := by
  constructor
  · intro code evs
    exact foldl_sessionStep_inRegistry evs _ rfl
  · intro code
    rfl

/-- C2, counterexample: the line `Browse at https://localhost:4000/`
satisfies the claim's readiness condition (it contains `Browse at`,
whitespace, and a URL beginning with `https://`), yet the parser
rejects it: the regular expression only matches the literal `http://`. -/
theorem c2_counterexample :
    findUrl "Browse at https://localhost:4000/" = none ∧
    IsMarkerLineClaim ("Browse at https://localhost:4000/").data := by
  constructor
  · decide
  · exact ⟨[], [' '], httpsScheme, "localhost:4000/".data, by decide, by decide,
      by decide, Or.inr rfl, by decide⟩

/-- C2, amended: the parser accepts a chunk if and only if it contains
the literal `Browse at` followed by whitespace and a URL beginning with
`http://` — an `https://` URL is not accepted — and on the first (that
is, leftmost) such occurrence it extracts and returns the URL, the
`http://` scheme plus the following run of non-whitespace characters. -/
theorem c2_parser_accepts_http_only :
    (∀ cs : List Char, (findUrlAux cs).isSome = true ↔ IsMarkerLine cs) ∧
    (∀ cs u, findUrlAux cs = some u →
      ∃ pre ws url post,
        cs = pre ++ browseMarker ++ ws ++ (httpScheme ++ url) ++ post ∧
        u = httpScheme ++ url ∧ ws ≠ [] ∧ (∀ c ∈ ws, isWsChar c = true) ∧
        url ≠ [] ∧ ∀ c ∈ url, isWsChar c = false) ∧
    findUrl "Browse at http://localhost:4000/\n" = some "http://localhost:4000/" :=
  ⟨findUrlAux_isSome_iff, findUrlAux_eq_some, by decide⟩

/-- C4: after `stopAllPreviews`, run from the state reached by any prior
sequence of start/stop/toggle operations, the registry holds zero
entries; every registered process that was not already killed received
exactly one termination signal (its kill count rose by one and it is
now marked killed); an already-killed registered process and every
unregistered process are untouched. -/
theorem c4_stopAll_teardown (ops : List ROp) :
    (stopAllPreviews (applyOps ops)).registry = [] ∧
    ∀ i p, (applyOps ops).procs[i]? = some p →
      (p.killed = false → i ∈ regPids (applyOps ops) →
        (stopAllPreviews (applyOps ops)).procs[i]?
          = some ⟨true, p.killCount + 1⟩) ∧
      (p.killed = true →
        (stopAllPreviews (applyOps ops)).procs[i]? = some p) ∧
      (i ∉ regPids (applyOps ops) →
        (stopAllPreviews (applyOps ops)).procs[i]? = some p) :=
  stopAllPreviews_spec (applyOps ops)

/-- C5, counterexample: with a session already registered for the key
(by a first URL-producing start), a second `startPreviewAndGetUrl` on
the same key spawns a second process — the guard of `startPreview` is
absent from the URL-returning path. -/
theorem c5_counterexample :
    ((startPreviewAndGetUrlSpawn "doc.qmd" emptyState).registry.lookup
      "doc.qmd").isSome = true ∧
    (startPreviewAndGetUrlSpawn "doc.qmd" emptyState).procs.length = 1 ∧
    (startPreviewAndGetUrlSpawn "doc.qmd"
      (startPreviewAndGetUrlSpawn "doc.qmd" emptyState)).procs.length = 2 := by
  decide

/-- C5, amended: only the external-path `startPreview` has the
already-running guard — a second `startPreview` on a registered key is
a complete no-op, and `startPreview` never returns an endpoint at all —
while the endpoint-producing `startPreviewAndGetUrl` has no guard and
spawns a fresh process on every call. -/
theorem c5_second_start (k : String) (st : PluginState) :
    ((st.registry.lookup k).isSome = true → startPreview k st = st) ∧
    (startPreviewAndGetUrlSpawn k st).procs.length = st.procs.length + 1 := by
  constructor
  · intro h
    simp [startPreview, h]
  · simp [startPreviewAndGetUrlSpawn, spawnProc]

/-- C5, witness: the amended statement at a concrete key and state. -/
theorem c5_witness :
    startPreview "doc.qmd" (startPreview "doc.qmd" emptyState)
      = startPreview "doc.qmd" emptyState ∧
    (startPreviewAndGetUrlSpawn "doc.qmd" emptyState).procs.length
      = emptyState.procs.length + 1 :=
  ⟨(c5_second_start "doc.qmd" (startPreview "doc.qmd" emptyState)).1 (by decide),
   (c5_second_start "doc.qmd" emptyState).2⟩

/-- C6: `stopPreview` is idempotent — the second call finds no entry and
changes nothing, so registry and process state equal those after one
call — and `stopPreview` on a key with no session is a no-op.  The
hypothesis that registry keys are distinct is the `Map` structural
invariant. -/
theorem c6_stop_idempotent (k : String) (st : PluginState)
    (hnd : (st.registry.map Prod.fst).Nodup) :
    stopPreview k (stopPreview k st) = stopPreview k st ∧
    (st.registry.lookup k = none → stopPreview k st = st) := by
  have hnoop : ∀ s : PluginState, s.registry.lookup k = none →
      stopPreview k s = s := by
    intro s hs
    simp [stopPreview, hs]
  constructor
  · cases hl : st.registry.lookup k with
    | none =>
      rw [hnoop st hl]
      exact hnoop st hl
    | some pid =>
      have h1 : stopPreview k st =
          { procs := killIfAlive st.procs pid,
            registry := delKey st.registry k } := by
        simp [stopPreview, hl]
      rw [h1]
      exact hnoop _ (lookup_delKey_self st.registry k hnd)
  · exact hnoop st

/-- C6, witness: idempotence after one real start, and the no-session
no-op, at concrete keys. -/
theorem c6_witness :
    stopPreview "doc.qmd"
        (stopPreview "doc.qmd" (startPreview "doc.qmd" emptyState))
      = stopPreview "doc.qmd" (startPreview "doc.qmd" emptyState) ∧
    stopPreview "other.qmd" (startPreview "doc.qmd" emptyState)
      = startPreview "doc.qmd" emptyState :=
  ⟨(c6_stop_idempotent "doc.qmd" (startPreview "doc.qmd" emptyState)
      (by decide)).1,
   (c6_stop_idempotent "other.qmd" (startPreview "doc.qmd" emptyState)
      (by decide)).2 (by decide)⟩

/-- C7: for a document whose absolute path is `dir ++ "/" ++ nm` (its
file name `nm` contains no separator), both start paths spawn with
command `quartoPath`, argument vector `["preview", absolute-path]`, and
working directory the containing directory `dir`. -/
theorem c7_spawn_arguments (qp dir nm : String) (hdir : dir ≠ "")
    (hnm : '/' ∉ nm.data) :
    (previewSpawnConfig qp (dir ++ "/" ++ nm)).cmd = qp ∧
    (previewSpawnConfig qp (dir ++ "/" ++ nm)).args
      = ["preview", dir ++ "/" ++ nm] ∧
    (previewSpawnConfig qp (dir ++ "/" ++ nm)).cwd = dir :=
  ⟨rfl, rfl, dirname_concat dir nm hdir hnm⟩

/-- C7, witness: the spawn configuration of a concrete document. -/
theorem c7_witness :
    (previewSpawnConfig "quarto" ("/vault/docs" ++ "/" ++ "note.qmd")).args
      = ["preview", "/vault/docs" ++ "/" ++ "note.qmd"] ∧
    (previewSpawnConfig "quarto" ("/vault/docs" ++ "/" ++ "note.qmd")).cwd
      = "/vault/docs" :=
  ⟨(c7_spawn_arguments "quarto" "/vault/docs" "note.qmd"
      (by decide) (by decide)).2.1,
   (c7_spawn_arguments "quarto" "/vault/docs" "note.qmd"
      (by decide) (by decide)).2.2⟩

/-- C8: the child environment equals the inherited environment merged
with the configured overrides (override wins on key collision): exactly
the inherited environment with `QUARTO_TYPST` replaced when that
override is configured, and exactly the inherited environment when no
override is configured. -/
theorem c8_env_merge (qt : String) (parent : List (String × String)) :
    envVarsFor qt parent = mergeEnv parent (quartoTypstOverrides qt) ∧
    (∀ k, (envVarsFor qt parent).lookup k =
      if k = "QUARTO_TYPST" ∧ ¬ jsTrim qt = "" then some (jsTrim qt)
      else parent.lookup k) ∧
    (quartoTypstOverrides qt = [] → envVarsFor qt parent = parent) := by
  by_cases h : jsTrim qt = ""
  · refine ⟨by simp [envVarsFor, quartoTypstOverrides, mergeEnv, h], ?_, ?_⟩
    · intro k
      rw [if_neg (by simp [h])]
      simp [envVarsFor, h]
    · intro _
      simp [envVarsFor, h]
  · refine ⟨by simp [envVarsFor, quartoTypstOverrides, mergeEnv, h], ?_, ?_⟩
    · intro k
      by_cases hk : k = "QUARTO_TYPST"
      · subst hk
        rw [if_pos ⟨rfl, h⟩]
        simp [envVarsFor, h, lookup_setKey_self]
      · rw [if_neg (by intro hc; exact hk hc.1)]
        simp [envVarsFor, h,
          lookup_setKey_other parent "QUARTO_TYPST" k (jsTrim qt) hk]
    · intro habs
      exfalso
      simp [quartoTypstOverrides, h] at habs

/-- C8, witness: a configured override replaces the inherited
`QUARTO_TYPST`, other variables are untouched, and with no override the
environment is exactly the inherited one. -/
theorem c8_witness :
    (envVarsFor " /opt/typst " [("PATH", "/bin"), ("QUARTO_TYPST", "old")]).lookup
      "QUARTO_TYPST" = some "/opt/typst" ∧
    (envVarsFor " /opt/typst " [("PATH", "/bin"), ("QUARTO_TYPST", "old")]).lookup
      "PATH" = some "/bin" ∧
    envVarsFor "" [("PATH", "/bin")] = [("PATH", "/bin")] := by
  refine ⟨?_, ?_, ?_⟩
  · have h := (c8_env_merge " /opt/typst "
      [("PATH", "/bin"), ("QUARTO_TYPST", "old")]).2.1 "QUARTO_TYPST"
    rw [if_pos ⟨rfl, by decide⟩] at h
    rw [h]
    decide
  · have h := (c8_env_merge " /opt/typst "
      [("PATH", "/bin"), ("QUARTO_TYPST", "old")]).2.1 "PATH"
    rw [if_neg (by intro hc; exact absurd hc.1 (by decide))] at h
    rw [h]
    decide
  · exact (c8_env_merge "" [("PATH", "/bin")]).2.2 (by decide)

/-- C9: `isQuartoFile` is true exactly for the lowercase extension
`qmd`, and the command/ribbon entry point rejects any other extension
with the `not a Quarto document` notice, leaving the registry — and so
the set of sessions — unchanged. -/
theorem c9_quarto_gate (f : TFile) (st : PluginState) :
    (isQuartoFile f = true ↔ f.extension = "qmd") ∧
    (f.extension ≠ "qmd" →
      commandCallback (some f) st = (st, [notQuartoNotice])) := by
  constructor
  · exact beq_iff_eq
  · intro h
    have hq : isQuartoFile f = false := beq_eq_false_iff_ne.mpr h
    simp [commandCallback, hq]

/-- C9, witness: the uppercase variant `QMD` is rejected with the notice
and no session is created. -/
theorem c9_witness :
    commandCallback (some ⟨"note.QMD", "QMD"⟩) emptyState
      = (emptyState, [notQuartoNotice]) ∧
    isQuartoFile ⟨"note.QMD", "QMD"⟩ = false :=
  ⟨(c9_quarto_gate ⟨"note.QMD", "QMD"⟩ emptyState).2 (by decide), by decide⟩

/-- C10: for a persisted object with distinct keys (a parsed JSON
object), every settings field present in the persisted data takes the
persisted value and every missing field takes its default — quartoPath
`quarto`, autoPreview `false`, enableQmdLinking `false`, useWebViewer
`true` — and an absent persisted object yields exactly the defaults;
`loadSettings` is total, so loading never fails on missing fields. -/
theorem c10_loadSettings_defaults (d : JsObj)
    (hnd : (d.map Prod.fst).Nodup) :
    ((loadSettings (some d)).lookup "quartoPath"
      = some ((d.lookup "quartoPath").getD (SettingValue.str "quarto"))) ∧
    ((loadSettings (some d)).lookup "autoPreview"
      = some ((d.lookup "autoPreview").getD (SettingValue.bool false))) ∧
    ((loadSettings (some d)).lookup "enableQmdLinking"
      = some ((d.lookup "enableQmdLinking").getD (SettingValue.bool false))) ∧
    ((loadSettings (some d)).lookup "useWebViewer"
      = some ((d.lookup "useWebViewer").getD (SettingValue.bool true))) ∧
    loadSettings none = DEFAULT_SETTINGS := by
  have base : ∀ k : String, (objAssign [] DEFAULT_SETTINGS).lookup k
      = DEFAULT_SETTINGS.lookup k := by
    intro k
    rw [lookup_objAssign (by decide) k]
    cases h : DEFAULT_SETTINGS.lookup k with
    | some v => simp
    | none => simp [List.lookup]
  have main : ∀ (k : String) (v : SettingValue),
      DEFAULT_SETTINGS.lookup k = some v →
      (loadSettings (some d)).lookup k = some ((d.lookup k).getD v) := by
    intro k v hk
    rw [loadSettings]
    simp only [Option.getD_some]
    rw [lookup_objAssign hnd k]
    cases h : d.lookup k with
    | some v0 => simp
    | none => simp [base k, hk]
  exact ⟨main _ _ (by decide), main _ _ (by decide), main _ _ (by decide),
    main _ _ (by decide), by decide⟩

/-- C10, witness: a partial persisted object keeps its stored field and
defaults the rest. -/
theorem c10_witness :
    (loadSettings (some [("autoPreview", SettingValue.bool true)])).lookup
      "autoPreview" = some (SettingValue.bool true) ∧
    (loadSettings (some [("autoPreview", SettingValue.bool true)])).lookup
      "quartoPath" = some (SettingValue.str "quarto") := by
  have h := c10_loadSettings_defaults
    [("autoPreview", SettingValue.bool true)] (by decide)
  exact ⟨by rw [h.2.1]; decide, by rw [h.1]; decide⟩

end QmdPreview
